import Mathlib

/-!
# Verification of the Warthog peer-coordination core specification

This file gives a shallow embedding, in Lean 4, of the parts of the
Warthog node's event loop and block/header plumbing that the specification
talks about, and proves (or refutes) the spec's claims against it.

Embedding conventions:
* machine integers (`uint32_t`, `size_t`, `int32_t`) are modelled as `ℕ` or
  `ℤ`; where truncation matters it is stated explicitly;
* C++ code that throws typed `Error` values is modelled with `Except` /
  explicit action lists;
* stateful handlers are modelled as pure state-transformers returning the
  new state together with the list of externally visible actions they
  perform (sends, closes, calls into the chain server);
* external collaborators whose code is not part of the studied sources
  (header/block downloader internals, the ordered timer map, the per-peer
  throttle queue) are modelled from the specification text; each such
  definition carries a doc comment starting with `Modelled from the spec:`.
-/

/-! ## Error codes (general/errors.hpp)

Only the codes the claims mention are carried. -/

/-- Protocol error codes used by the event loop (subset of the repository's
error enumeration relevant to the claims). -/
inductive Err where
  | ECHECKSUM
  | ENOINIT
  | EINVINIT
  | ELOWPRIORITY
  | EBATCHSIZE
  | EBLOCKSIZE
  | ETIMEOUT
  deriving DecidableEq, Repr

/-! ## C5: `Eventloop::defer` and `Eventloop::async_shutdown`

From `src/src/node/eventloop/types/conndata.cpp`:

```cpp
bool Eventloop::defer(Event e) {
    std::unique_lock<std::mutex> l(mutex);
    if (closeReason) return false;
    haswork = true;
    events.push(std::move(e));
    cv.notify_one();
    return true;
}
void Eventloop::async_shutdown(int32_t reason) {
    std::unique_lock<std::mutex> l(mutex);
    haswork = true;
    closeReason = reason;
    cv.notify_one();
}
```

The mutex-protected part of the loop state is modelled as a record; the
event payload type is irrelevant to the claim and is kept as a type
parameter.  `events.push` on a `std::queue` appends at the back. -/

/-- Mutex-protected shared state of the event loop: `haswork`, `closeReason`
(0 means "not set") and the FIFO event queue. -/
structure LoopShared (Event : Type) where
  haswork : Bool
  closeReason : Int
  events : List Event
  deriving Repr

/-- `Eventloop::defer`: rejects when the close-reason flag is set, otherwise
appends the event to the FIFO queue, sets `haswork` and wakes the loop
(the wake is the `haswork := true` + notify; notify has no further state). -/
def LoopShared.defer {Event : Type} (s : LoopShared Event) (e : Event) :
    Bool × LoopShared Event :=
  if s.closeReason ≠ 0 then
    (false, s)
  else
    (true, { s with haswork := true, events := s.events ++ [e] })

/-- `Eventloop::async_shutdown`: sets the close-reason flag and wakes the
loop. -/
def LoopShared.async_shutdown {Event : Type} (s : LoopShared Event)
    (reason : Int) : LoopShared Event :=
  { s with haswork := true, closeReason := reason }

/-! ## C4: `Eventloop::handle_msg(Conref, LeaderMsg&&)`

From `src/src/node/eventloop/types/conndata.cpp`:

```cpp
void Eventloop::handle_msg(Conref cr, LeaderMsg&& msg) {
    // ban if necessary
    if (msg.signedSnapshot.priority <= cr->acknowledgedSnapshotPriority) {
        close(cr, ELOWPRIORITY);
        return;
    }
    // update knowledge about sender
    cr->acknowledgedSnapshotPriority = msg.signedSnapshot.priority;
    if (cr->theirSnapshotPriority < msg.signedSnapshot.priority) {
        cr->theirSnapshotPriority = msg.signedSnapshot.priority;
    }
    stateServer.async_set_signed_checkpoint(msg.signedSnapshot);
}
```

`SignedSnapshot::Priority` is a totally ordered value; it is modelled as
`ℕ`.  The two per-peer counters are the fields below. -/

/-- Per-peer snapshot priority counters (`theirSnapshotPriority`,
`acknowledgedSnapshotPriority` on the peer state). -/
structure PeerPriorities where
  theirSnapshotPriority : ℕ
  acknowledgedSnapshotPriority : ℕ
  deriving DecidableEq, Repr

/-- Externally visible actions of the Leader handler. -/
inductive LeaderAction where
  | close (e : Err)
  | setSignedCheckpoint (priority : ℕ)
  deriving DecidableEq, Repr

/-- `Eventloop::handle_msg(Conref, LeaderMsg&&)`: close with `ELOWPRIORITY`
when the carried priority does not strictly exceed the acknowledged one,
otherwise raise the counters and forward the snapshot to the chain server. -/
def handle_leader (p : PeerPriorities) (msgPriority : ℕ) :
    PeerPriorities × List LeaderAction :=
  if msgPriority ≤ p.acknowledgedSnapshotPriority then
    (p, [.close .ELOWPRIORITY])
  else
    ({ acknowledgedSnapshotPriority := msgPriority,
       theirSnapshotPriority :=
         if p.theirSnapshotPriority < msgPriority then msgPriority
         else p.theirSnapshotPriority },
     [.setSignedCheckpoint msgPriority])

/-! ## C7: `Eventloop::handle_msg(Conref, BatchrepMsg&&)`

From `src/src/node/eventloop/types/conndata.cpp`:

```cpp
void Eventloop::handle_msg(Conref cr, BatchrepMsg&& m) {
    auto req = cr.job().pop_req(m, timer, activeRequests);
    if (m.batch.size() < req.minReturn || m.batch.size() > req.max_return()) {
        close(ChainOffender(EBATCHSIZE, req.selector.startHeight, cr.id()));
        return;
    }
    auto offenders = headerDownload.on_response(cr, std::move(req), std::move(m.batch));
    for (auto& o : offenders) { close(o); }
    initialize_block_download();
    do_requests();
}
```

The `Batchrequest` type lives in `types/peer_requests.hpp`, which is not
among the studied sources; its `minReturn` field and `max_return()`
accessor are modelled from the spec sentence "size ∈ [minReturn,
maxReturn]".  The header downloader's validation verdict is an input to the
handler (a list of offender connection-ids it reports). -/

/-- Modelled from the spec: the pending header-batch request
(`Batchrequest` of `types/peer_requests.hpp`, absent from the studied
sources).  Only the reply-size bounds `minReturn` / `maxReturn` and the
request's start height matter here. -/
structure Batchrequest where
  minReturn : ℕ
  maxReturn : ℕ
  startHeight : ℕ
  deriving DecidableEq, Repr

/-- Externally visible actions of the batch-reply handler. -/
inductive BatchrepAction where
  /-- `close(ChainOffender(e, height, conId))` -/
  | closeOffender (e : Err) (height : ℕ) (conId : ℕ)
  /-- the batch is handed to `headerDownload.on_response` -/
  | handToHeaderDownload
  /-- closing an offender reported by the header downloader -/
  | closeReported (conId : ℕ)
  deriving DecidableEq, Repr

/-- `Eventloop::handle_msg(Conref, BatchrepMsg&&)` after the nonce lookup:
reject out-of-bounds batch sizes as chain offenses with `EBATCHSIZE`,
otherwise hand the batch to the header downloader and close whatever
offenders it reports (`reported`). -/
def handle_batchrep (conId : ℕ) (req : Batchrequest) (batchSize : ℕ)
    (reported : List ℕ) : List BatchrepAction :=
  if batchSize < req.minReturn ∨ batchSize > req.maxReturn then
    [.closeOffender .EBATCHSIZE req.startHeight conId]
  else
    .handToHeaderDownload :: reported.map .closeReported

/-! ## C8 / C10: `BodyContainer` (span constructor and parsing)

From the unnamed source file holding `BodyContainer`'s implementation:

```cpp
BodyContainer::BodyContainer(std::span<const uint8_t> s) {
    if (s.size() > MAXBLOCKSIZE) {
        throw Error(EBLOCKSIZE);
    }
}

std::optional<BodyStructure> BodyContainer::parse_structure(NonzeroHeight h, BlockVersion v) const {
    return BodyStructure::parse(bytes, h, v);
}
```

The span constructor performs only the size check; it never assigns the
`bytes` member, which therefore stays default-constructed (an empty
`std::vector<uint8_t>`).  (Contrast the `Reader` constructor, which does
`bytes.assign(s.begin(), s.end())`.) -/

/-- Modelled from the spec: `MAXBLOCKSIZE` is defined in
`general/params.hpp`, which is absent from the studied sources; the spec
says only "body size MUST be ≤ `MAXBLOCKSIZE`".  The claims about
`BodyContainer` depend solely on comparisons against this constant, not on
its value; the value below is a placeholder. -/
def MAXBLOCKSIZE : ℕ := 4000000

/-- `BodyContainer`: a block body as a byte vector. -/
structure BodyContainer where
  bytes : List ℕ
  deriving DecidableEq, Repr

/-- `BodyContainer::BodyContainer(std::span<const uint8_t>)`: throws
`EBLOCKSIZE` when the span is longer than `MAXBLOCKSIZE`; otherwise the
constructor body is empty, so `bytes` keeps its default (empty) value. -/
def BodyContainer.fromSpan (s : List ℕ) : Except Err BodyContainer :=
  if s.length > MAXBLOCKSIZE then
    .error .EBLOCKSIZE
  else
    .ok { bytes := [] }

/-- Modelled from the spec: `BodyStructure::parse` (in `block/body/view.hpp`,
absent from the studied sources) is kept abstract; `parse_structure` merely
applies it to the container's `bytes` member, which is what C10 is about. -/
def BodyContainer.parse_structure {β : Type}
    (parse : List ℕ → Option β) (b : BodyContainer) : Option β :=
  parse b.bytes

/-! ## C2: `Eventloop::dispatch_message` and `Eventloop::process_connection`

From `src/src/node/eventloop/types/conndata.cpp`:

```cpp
void Eventloop::dispatch_message(Conref cr, Rcvbuffer& msg) {
    if (msg.verify() == false) throw Error(ECHECKSUM);
    auto m = msg.parse();
    if (cr.job().awaiting_init()) {
        if (!std::holds_alternative<InitMsg>(m)) { ... throw Error(ENOINIT); }
    } else {
        if (std::holds_alternative<InitMsg>(m)) throw Error(EINVINIT);
    }
    std::visit([&](auto&& e) { handle_msg(cr, std::move(e)); }, m);
}
```

and the message loop of `process_connection`:

```cpp
    for (auto& msg : messages) {
        try {
            dispatch_message(cr, msg);
        } catch (Error e) {
            close(cr, e.e);
            do_requests();
            break;
        }
        if (c->eventloop_erased) { return; }
    }
```

A received buffer is modelled by its checksum verdict together with the
message variant its payload parses to (payloads are irrelevant to the
claim).  `handle_msg(InitMsg)` calls `cr.job().reset_notexpired<AwaitInit>`
and `insert`, after which the peer is no longer awaiting its handshake;
the fold below tracks exactly that phase bit. -/

/-- The typed message variants of the wire protocol. -/
inductive MsgKind where
  | init | ping | pong | batchreq | batchrep | probereq | proberep
  | blockreq | blockrep | append | signedPinRollback | fork
  | txnotify | txreq | txrep | leader
  deriving DecidableEq, Repr

/-- An inbound `Rcvbuffer`: whether `msg.verify()` succeeds, and the message
variant `msg.parse()` yields. -/
structure Rcvbuffer where
  checksumOk : Bool
  msg : MsgKind
  deriving DecidableEq, Repr

/-- `Eventloop::dispatch_message` (the checks before `handle_msg`): raises
`ECHECKSUM` on checksum failure, `ENOINIT` when a pre-handshake message is
not `Init`, `EINVINIT` when a post-handshake message is `Init`; otherwise
the message is handed to its typed handler. -/
def dispatch_message (awaitingInit : Bool) (rb : Rcvbuffer) :
    Except Err MsgKind :=
  if rb.checksumOk = false then
    .error .ECHECKSUM
  else if awaitingInit then
    if rb.msg ≠ .init then .error .ENOINIT else .ok rb.msg
  else
    if rb.msg = .init then .error .EINVINIT else .ok rb.msg

/-- Visible outcome of processing one buffer of a peer's message batch. -/
inductive ProcessAction where
  /-- the buffer was dispatched to its typed handler -/
  | handled (m : MsgKind)
  /-- a raised error was converted to `close(cr, e)` for this peer -/
  | closed (e : Err)
  deriving DecidableEq, Repr

/-- The message loop of `Eventloop::process_connection`: dispatch each
buffer in order; the first raised error closes the peer with that code and
stops processing this peer's remaining buffers (the event loop itself
continues, which is why this function is total and returns normally).
Handling an `Init` message ends the awaiting-handshake phase. -/
def process_messages (awaitingInit : Bool) :
    List Rcvbuffer → List ProcessAction
  | [] => []
  | rb :: rest =>
    match dispatch_message awaitingInit rb with
    | .error e => [.closed e]
    | .ok m =>
      .handled m :: process_messages (awaitingInit && !(m = .init)) rest

/-! ## C3: `Eventloop::handle_event(OnForwardBlockrep&&)` and throttled sends

From `src/src/node/eventloop/types/conndata.cpp`:

```cpp
void Eventloop::handle_event(OnForwardBlockrep&& m) {
    if (auto cr { connections.find(m.conId) }; cr)
        send_throttled(cr, BlockrepMsg(cr->lastNonce, std::move(m.blocks)), 1s);
}

void Eventloop::send_throttled(Conref cr, Sndbuffer b, duration d) {
    cr->throttled.insert(std::move(b), timer, cr.id());
    cr->throttled.add_throttle(d);
}
```

The per-peer throttled queue type itself (`types/conndata.hpp`) is not
among the studied sources and is modelled from the spec (§4.3, §5):
"accepts buffers with a minimum gap; when the gap is violated, a
`ThrottledSend` timer is armed and the buffer drains on expiry";
"`ThrottledSend` drains one buffer per fire; queue-head gap rearms the
timer".  Time is in seconds (`ℕ`). -/

/-- Modelled from the spec: the per-peer throttled send queue.
`throttleUntil` is the instant before which no further buffer may be put
on the wire; `pending` holds the buffers waiting for a `ThrottledSend`
timer fire; `timerArmed` records whether such a timer is armed. -/
structure ThrottledQueue (Buf : Type) where
  throttleUntil : ℕ
  pending : List Buf
  timerArmed : Bool

/-- Modelled from the spec: inserting a buffer into the throttled queue at
time `now`.  If the minimum gap is respected and nothing is pending the
buffer is sent immediately; otherwise it is queued and the `ThrottledSend`
timer is armed.  Returns the buffer sent now (if any) and the new queue. -/
def ThrottledQueue.insert {Buf : Type} (q : ThrottledQueue Buf) (now : ℕ)
    (b : Buf) : Option Buf × ThrottledQueue Buf :=
  if q.throttleUntil ≤ now ∧ q.pending.isEmpty then
    (some b, q)
  else
    (none, { q with pending := q.pending ++ [b], timerArmed := true })

/-- Modelled from the spec: `add_throttle(d)` extends the throttle window
by `d` beyond the later of `now` and the current window end. -/
def ThrottledQueue.add_throttle {Buf : Type} (q : ThrottledQueue Buf)
    (now d : ℕ) : ThrottledQueue Buf :=
  { q with throttleUntil := max q.throttleUntil now + d }

/-- Modelled from the spec: a `ThrottledSend` timer fire drains exactly one
buffer (the queue head) and rearms the timer when buffers remain. -/
def ThrottledQueue.onThrottledSend {Buf : Type} (q : ThrottledQueue Buf) :
    Option Buf × ThrottledQueue Buf :=
  match q.pending with
  | [] => (none, { q with timerArmed := false })
  | b :: rest => (some b, { q with pending := rest, timerArmed := !rest.isEmpty })

/-- `Eventloop::send_throttled(cr, b, d)`: insert the buffer into the
peer's throttled queue, then extend the throttle window by `d`. -/
def send_throttled {Buf : Type} (q : ThrottledQueue Buf) (now : ℕ) (b : Buf)
    (d : ℕ) : Option Buf × ThrottledQueue Buf :=
  let (sent, q1) := q.insert now b
  (sent, q1.add_throttle now d)

/-- The state `handle_event(OnForwardBlockrep&&)` touches on the peer found
by `connections.find(m.conId)`: its `lastNonce` and its throttled queue.
Buffers on the wire are modelled as `(nonce, blocks)` pairs, mirroring
`BlockrepMsg(cr->lastNonce, std::move(m.blocks))`. -/
structure ForwardPeer where
  lastNonce : ℕ
  throttled : ThrottledQueue (ℕ × List BodyContainer)

/-- `Eventloop::handle_event(OnForwardBlockrep&&)`: when the peer is still
registered, send `BlockrepMsg(lastNonce, blocks)` through its throttled
queue with a throttle duration of 1 second; when it is gone, do nothing. -/
def handle_onForwardBlockrep (peer : Option ForwardPeer) (now : ℕ)
    (blocks : List BodyContainer) :
    Option (Option (ℕ × List BodyContainer) × ForwardPeer) :=
  match peer with
  | none => none
  | some p =>
    let r := send_throttled p.throttled now (p.lastNonce, blocks) 1
    some (r.1, { p with throttled := r.2 })

/-! ## C6: `Eventloop::work` — expired timers before queued events

From `src/src/node/eventloop/types/conndata.cpp`:

```cpp
void Eventloop::work() {
    decltype(events) tmp;
    std::vector<Timer::Event> expired;
    {
        std::unique_lock<std::mutex> l(mutex);
        std::swap(tmp, events);
        expired = timer.pop_expired();
    }
    for (auto& data : expired) { ... handle_timeout(std::move(e)); }
    while (!tmp.empty()) { ... handle_event(std::move(e)); tmp.pop(); }
    connections.garbage_collect();
    update_sync_state();
}
```

The timer type (`eventloop/timer.hpp`) is not among the studied sources; it
is modelled from the spec (§4.2): "ordered map from deadline → tagged
payload", `popExpired(now) → list`, "timers fire in deadline order".  The
ordered map is modelled as a list of entries sorted by deadline; popping
the expired entries takes the maximal prefix of entries due at or before
`now`. -/

/-- A scheduled timer entry: a deadline paired with its tagged payload
(payload contents are irrelevant to the ordering claim). -/
structure TimerEntry (P : Type) where
  deadline : ℕ
  payload : P

/-- Modelled from the spec: the timer wheel is an ordered map
deadline → payload; the model keeps the entries as a list sorted by
deadline. -/
def TimerSorted {P : Type} (entries : List (TimerEntry P)) : Prop :=
  entries.Sorted (fun a b => a.deadline ≤ b.deadline)

/-- Modelled from the spec: `popExpired(now)` removes and returns all
entries due at or before `now`; on a deadline-sorted list these form the
maximal prefix of due entries. -/
def pop_expired {P : Type} (entries : List (TimerEntry P)) (now : ℕ) :
    List (TimerEntry P) × List (TimerEntry P) :=
  (entries.takeWhile (fun e => e.deadline ≤ now),
   entries.dropWhile (fun e => e.deadline ≤ now))

/-- One dispatch performed by `Eventloop::work`: either an expired-timer
callback or a queued-event handler. -/
inductive Dispatch (P E : Type) where
  | timer (e : TimerEntry P)
  | event (e : E)

/-- The dispatch trace of one `Eventloop::work` iteration: all expired
timer entries (in pop order) followed by all queued events (in FIFO
order). -/
def workDispatch {P E : Type} (timerEntries : List (TimerEntry P))
    (events : List E) (now : ℕ) : List (Dispatch P E) :=
  ((pop_expired timerEntries now).1.map .timer) ++ (events.map .event)

/-! ## C1: the active-request budget

From `src/src/node/eventloop/eventloop.hpp`:

```cpp
    size_t activeRequests = 0;
    size_t maxRequests = 10;
...
inline bool RequestSender::finished() {
    return e.maxRequests <= e.activeRequests;
}
```

and from `src/src/node/eventloop/types/conndata.cpp`:

```cpp
template <typename T>
void Eventloop::send_request(Conref c, const T& req) {
    auto t = timer.insert(req.expiry_time, Timer::Expire { c.id() });
    c.job().assign(t, timer, req);
    if (req.isActiveRequest) {
        assert(activeRequests < maxRequests);
        activeRequests += 1;
    }
    c.send(req);
}
```

Each peer holds at most one job; the job is either absent (idle), the
pre-handshake `AwaitInit` sentinel, or an in-flight request which may or
may not count against the budget (`isActiveRequest`).  The counter
`activeRequests` equals the number of peers holding an active in-flight
request; the spec states the invariant as
`Σ indicator(p.job = hasJob ∧ isActive) ≤ maxRequests`, and the model
counts jobs directly.

The operations that change the per-peer job / the counter are:
* `send_request` — gated by the downloaders, which stop issuing when
  `RequestSender::finished()` holds (modelled from the spec: the
  downloader sources are absent; "global count of active jobs is bounded
  by a configurable `maxRequests`"); increments when `isActiveRequest`;
* reply completion — `pop_req(m, timer, activeRequests)` (modelled from
  the spec: `peer_requests.hpp` is absent; every completion decrements);
* expiry — `handle_connection_timeout(cr, Timer::Expire&&)` calls
  `unref_active_requests(activeRequests)` on the job;
* peer erase — `Eventloop::erase` calls
  `c.job().unref_active_requests(activeRequests)`;
* peer admission (`connections.insert`) creates an `AwaitInit` job, and
  `handle_msg(InitMsg)` clears it (`reset_notexpired<AwaitInit>`). -/

/-- The per-peer job slot: idle, awaiting the handshake, or holding an
in-flight request that is active (budget-counted) or not. -/
inductive Job where
  | idle
  | awaitingInit
  | hasJob (isActive : Bool)
  deriving DecidableEq, Repr

/-- Whether a job counts against the `maxRequests` budget. -/
def Job.isActiveReq : Job → Bool
  | .hasJob true => true
  | _ => false

/-- The number of active in-flight requests across a peer registry:
`Σ indicator(p.job = hasJob ∧ isActive)`. -/
def activeJobs (peers : List Job) : ℕ :=
  peers.countP Job.isActiveReq

/-- The request-accounting fragment of the event loop state: the job slot
of every registered (non-erased) peer, and the configured budget. -/
structure ReqState where
  peers : List Job
  maxRequests : ℕ
  deriving DecidableEq, Repr

/-- `RequestSender::finished()`: the budget is exhausted
(`maxRequests <= activeRequests`). -/
def ReqState.finished (s : ReqState) : Bool :=
  s.maxRequests ≤ activeJobs s.peers

/-- The operations of the event loop that touch a peer's job slot or the
request counter, as a step relation.  `send` is only possible for a
budget-counted request while `RequestSender::finished()` is false (the
downloaders gate issuing on it, and `send_request` asserts
`activeRequests < maxRequests` before incrementing); completion, expiry
and erase release the slot; `addPeer` and `gotInit` manage the handshake
sentinel. -/
inductive ReqStep : ReqState → ReqState → Prop
  | addPeer (s : ReqState) :
      ReqStep s { s with peers := s.peers ++ [.awaitingInit] }
  | gotInit (s : ReqState) (i : ℕ) (h : s.peers.get? i = some .awaitingInit) :
      ReqStep s { s with peers := s.peers.set i .idle }
  | send (s : ReqState) (i : ℕ) (isActive : Bool)
      (h : s.peers.get? i = some .idle)
      (hgate : isActive = true → s.finished = false) :
      ReqStep s { s with peers := s.peers.set i (.hasJob isActive) }
  | complete (s : ReqState) (i : ℕ) (a : Bool)
      (h : s.peers.get? i = some (.hasJob a)) :
      ReqStep s { s with peers := s.peers.set i .idle }
  | expire (s : ReqState) (i : ℕ) (a : Bool)
      (h : s.peers.get? i = some (.hasJob a)) :
      ReqStep s { s with peers := s.peers.set i (.hasJob false) }
  | erase (s : ReqState) (i : ℕ) :
      ReqStep s { s with peers := s.peers.eraseIdx i }

/-! ## C9: `TargetV1::compatible` and `TargetV1::difficulty`

From `src/src/shared/src/block/header/difficulty.hpp`.  A `TargetV1` is a
`uint32_t`: byte 0 (the top byte) is the required leading-zero count,
bytes 1–3 are a 24-bit mantissa.

`compatible(hash)`:

```cpp
bool TargetV1::compatible(const Hash& hash) const {
    auto zeros = zeros8();
    if (zeros > (256u - 4 * 8u)) return false;
    uint32_t bits = bits24();
    if ((bits & 0x00800000u) == 0) return false;
    const size_t zerobytes = zeros / 8;
    const size_t shift = zeros & 0x07u;
    for (size_t i = 0; i < zerobytes; ++i)
        if (hash[31 - i] != 0u) return false;
    uint32_t threshold = bits << (8u - shift);
    uint32_t candidate;                    // assembled from hash bytes
    uint8_t* dst = reinterpret_cast<uint8_t*>(&candidate);
    const uint8_t* src = &hash[28 - zerobytes];
    dst[0] = src[3]; dst[1] = src[2]; dst[2] = src[1]; dst[3] = src[0];
    candidate = ntoh32(candidate);
    if (candidate > threshold) return false;
    if (candidate < threshold) return true;
    for (size_t i = 0; i < 28 - zerobytes; ++i)
        if (hash[i] != 0) return false;
    return true;
}
double TargetV1::difficulty() const {
    const int zeros = zeros8();
    double dbits = bits24();
    return std::ldexp(1 / dbits, zeros + 24);
}
```

The byte dance for `candidate` reverses `src[0..3]` into `dst` and then
byte-swaps again with `ntoh32`; on either endianness the result is the
little-endian read `src[0] + 2^8·src[1] + 2^16·src[2] + 2^24·src[3]` of the
four hash bytes at indices `28-zerobytes .. 31-zerobytes`.  A hash is a
32-byte array, modelled as a `List ℕ` of length 32 with entries < 256;
together with the zero-byte loop over `hash[31-i]` this reads the whole
hash as a little-endian number with `hash[31]` most significant.

`difficulty` returns `2^(zeros+24) / bits` computed in `double`; for the
mantissa range involved (24-bit integers) the `double` rounding of
`1/bits` is strictly antitone in `bits` and `ldexp` is exact, so the
ordering of `difficulty` values coincides with the ordering of the exact
rationals; the model uses the exact rational. -/

/-- `TargetV1`: a 4-byte difficulty target, stored as its `uint32_t`
host value (`data < 2^32` is carried as a hypothesis where it matters). -/
structure TargetV1 where
  data : ℕ
  deriving DecidableEq, Repr

/-- `TargetV1::zeros8()`: the top byte, the required leading-zero count. -/
def TargetV1.zeros8 (t : TargetV1) : ℕ := t.data >>> 24

/-- `TargetV1::bits24()`: the low 24 bits, the mantissa. -/
def TargetV1.bits24 (t : TargetV1) : ℕ := t.data &&& 0x00FFFFFF

/-- Read a hash byte: `hash[i]`. -/
def hashGet (h : List ℕ) (i : ℕ) : ℕ := h.getD i 0

/-- The `candidate` word of `TargetV1::compatible`: the little-endian read
of the four hash bytes starting at index `28 - zerobytes` (see the header
comment for why the two byte reversals cancel to this). -/
def candidate (h : List ℕ) (zerobytes : ℕ) : ℕ :=
  hashGet h (28 - zerobytes) + 2 ^ 8 * hashGet h (28 - zerobytes + 1)
    + 2 ^ 16 * hashGet h (28 - zerobytes + 2)
    + 2 ^ 24 * hashGet h (28 - zerobytes + 3)

/-- `TargetV1::compatible(hash)`. -/
def TargetV1.compatible (t : TargetV1) (h : List ℕ) : Bool :=
  let zeros := t.zeros8
  if 256 - 4 * 8 < zeros then false
  else
    let bits := t.bits24
    if bits &&& 0x00800000 = 0 then false
    else
      let zerobytes := zeros / 8
      let shift := zeros % 8
      if (List.range zerobytes).any (fun i => hashGet h (31 - i) != 0) then
        false
      else
        let threshold := bits <<< (8 - shift)
        let c := candidate h zerobytes
        if threshold < c then false
        else if c < threshold then true
        else (List.range (28 - zerobytes)).all (fun i => hashGet h i == 0)

/-- `TargetV1::difficulty()` as the exact rational `2^(zeros+24) / bits`
(see the header comment on `double` faithfulness). -/
def TargetV1.difficulty (t : TargetV1) : ℚ :=
  (2 ^ (t.zeros8 + 24) : ℚ) / (t.bits24 : ℚ)

/-- A well-formed 32-byte hash: length 32, every byte below 256. -/
def ValidHash (h : List ℕ) : Prop :=
  h.length = 32 ∧ ∀ b ∈ h, b < 256

instance : DecidablePred ValidHash := fun h => by
  unfold ValidHash; infer_instance

/-- The value of a byte list read as a little-endian base-256 number. -/
def leVal : List ℕ → ℕ
  | [] => 0
  | b :: t => b + 256 * leVal t

/-! ## Theorems -/

/-- C5: `defer(e)` returns false iff shutdown has been initiated (the
close-reason flag is set); when it returns false the event is not enqueued
(the shared state is unchanged), and when it returns true the event is
appended to the FIFO queue and the loop is woken (`haswork` set); in
particular after `async_shutdown` with a nonzero reason, `defer` rejects. -/
theorem C5_defer_rejects_iff_shutdown {Event : Type} (s : LoopShared Event)
    (e : Event) :
    ((s.defer e).1 = false ↔ s.closeReason ≠ 0)
    ∧ ((s.defer e).1 = false → (s.defer e).2 = s)
    ∧ ((s.defer e).1 = true →
        (s.defer e).2.events = s.events ++ [e] ∧ (s.defer e).2.haswork = true)
    ∧ (∀ r : Int, r ≠ 0 → ((s.async_shutdown r).defer e).1 = false) := by
  refine ⟨?_, ?_, ?_, fun r hr => ?_⟩
  · by_cases hc : s.closeReason ≠ 0 <;> simp [LoopShared.defer, hc]
  · by_cases hc : s.closeReason ≠ 0 <;> simp [LoopShared.defer, hc]
  · by_cases hc : s.closeReason ≠ 0 <;> simp [LoopShared.defer, hc]
  · simp [LoopShared.defer, LoopShared.async_shutdown, hr]

/-- Witness for C5 at a concrete state: an accepted event lands at the back
of the queue, and after shutdown with reason 3 the next event is refused. -/
theorem C5_defer_rejects_iff_shutdown_witness :
    (((⟨false, 0, [7]⟩ : LoopShared ℕ).defer 9).2.events = [7, 9]
      ∧ ((⟨false, 0, [7]⟩ : LoopShared ℕ).defer 9).2.haswork = true)
    ∧ (((⟨false, 0, [7]⟩ : LoopShared ℕ).async_shutdown 3).defer 9).1 = false :=
  ⟨(C5_defer_rejects_iff_shutdown (⟨false, 0, [7]⟩ : LoopShared ℕ) 9).2.2.1
      (by decide),
   (C5_defer_rejects_iff_shutdown (⟨false, 0, [7]⟩ : LoopShared ℕ) 9).2.2.2 3
      (by decide)⟩

/-- C4: on a Leader message, a priority not strictly above the peer's
acknowledged snapshot priority closes the peer with `ELOWPRIORITY` and
forwards nothing (the action list is exactly the close); a strictly higher
priority raises the acknowledged priority to it, raises the theirs-known
priority to it when lower (i.e. to the max of the two), and forwards the
snapshot via the signed-checkpoint call. -/
theorem C4_leader_priority (p : PeerPriorities) (mp : ℕ) :
    (mp ≤ p.acknowledgedSnapshotPriority →
      handle_leader p mp = (p, [.close .ELOWPRIORITY]))
    ∧ (p.acknowledgedSnapshotPriority < mp →
      (handle_leader p mp).1.acknowledgedSnapshotPriority = mp
      ∧ (handle_leader p mp).1.theirSnapshotPriority
          = max p.theirSnapshotPriority mp
      ∧ (handle_leader p mp).2 = [.setSignedCheckpoint mp]) := by
  unfold handle_leader
  constructor
  · intro hle
    rw [if_pos hle]
  · intro hlt
    rw [if_neg (Nat.not_le.mpr hlt)]
    refine ⟨rfl, ?_, rfl⟩
    show (if p.theirSnapshotPriority < mp then mp else p.theirSnapshotPriority)
        = max p.theirSnapshotPriority mp
    split <;> omega

/-- Witness for C4 at concrete priorities: ack 5, theirs 2, message 6. -/
theorem C4_leader_priority_witness :
    handle_leader ⟨2, 5⟩ 5 = (⟨2, 5⟩, [.close .ELOWPRIORITY])
    ∧ (handle_leader ⟨2, 5⟩ 6).1.acknowledgedSnapshotPriority = 6
    ∧ (handle_leader ⟨2, 5⟩ 6).1.theirSnapshotPriority = max 2 6
    ∧ (handle_leader ⟨2, 5⟩ 6).2 = [.setSignedCheckpoint 6] :=
  ⟨(C4_leader_priority ⟨2, 5⟩ 5).1 (by decide),
   (C4_leader_priority ⟨2, 5⟩ 6).2 (by decide)⟩

/-- C7: a header-batch reply whose size is below `minReturn` or above
`maxReturn` closes the peer as a chain offender with `EBATCHSIZE` and is
not handed to the header downloader; an in-range batch is handed to the
header downloader and every offender it reports is closed. -/
theorem C7_batchrep_size (conId : ℕ) (req : Batchrequest) (n : ℕ)
    (reported : List ℕ) :
    ((n < req.minReturn ∨ req.maxReturn < n) →
      handle_batchrep conId req n reported
        = [.closeOffender .EBATCHSIZE req.startHeight conId]
      ∧ BatchrepAction.handToHeaderDownload
          ∉ handle_batchrep conId req n reported)
    ∧ (req.minReturn ≤ n → n ≤ req.maxReturn →
      handle_batchrep conId req n reported
        = .handToHeaderDownload :: reported.map .closeReported
      ∧ ∀ o ∈ reported,
          BatchrepAction.closeReported o ∈ handle_batchrep conId req n reported) := by
  unfold handle_batchrep
  constructor
  · intro hout
    rw [if_pos hout]
    simp
  · intro hmin hmax
    rw [if_neg (by omega)]
    refine ⟨rfl, fun o ho => ?_⟩
    exact List.mem_cons_of_mem _ (List.mem_map_of_mem _ ho)

/-- Witness for C7: bounds [2,5]; a batch of size 1 is rejected with
`EBATCHSIZE`, a batch of size 3 is handed over and offender 42 is closed. -/
theorem C7_batchrep_size_witness :
    handle_batchrep 9 ⟨2, 5, 100⟩ 1 [42]
      = [.closeOffender .EBATCHSIZE 100 9]
    ∧ handle_batchrep 9 ⟨2, 5, 100⟩ 3 [42]
      = [.handToHeaderDownload, .closeReported 42] :=
  ⟨((C7_batchrep_size 9 ⟨2, 5, 100⟩ 1 [42]).1 (Or.inl (by decide))).1,
   ((C7_batchrep_size 9 ⟨2, 5, 100⟩ 3 [42]).2 (by decide) (by decide)).1⟩

/-- C8: constructing a `BodyContainer` from a span longer than
`MAXBLOCKSIZE` throws `EBLOCKSIZE`; for any span of size at most
`MAXBLOCKSIZE` the constructor succeeds. -/
theorem C8_bodycontainer_blocksize (s : List ℕ) :
    (MAXBLOCKSIZE < s.length → BodyContainer.fromSpan s = .error .EBLOCKSIZE)
    ∧ (s.length ≤ MAXBLOCKSIZE → ∃ b, BodyContainer.fromSpan s = .ok b) := by
  unfold BodyContainer.fromSpan
  constructor
  · intro hgt
    rw [if_pos hgt]
  · intro hle
    exact ⟨_, by rw [if_neg (by omega)]⟩

/-- Witness for C8: the empty span is accepted; a span one byte longer
than `MAXBLOCKSIZE` is rejected with `EBLOCKSIZE`. -/
theorem C8_bodycontainer_blocksize_witness :
    BodyContainer.fromSpan (List.replicate (MAXBLOCKSIZE + 1) 0)
      = .error .EBLOCKSIZE
    ∧ ∃ b, BodyContainer.fromSpan [] = .ok b :=
  ⟨(C8_bodycontainer_blocksize (List.replicate (MAXBLOCKSIZE + 1) 0)).1
      (by simp),
   (C8_bodycontainer_blocksize []).2 (by simp)⟩

/-- C10: the span constructor never stores the span's content — every
accepted span yields a container whose `bytes` member is empty, so parsing
the resulting container applies the body parser to the empty byte string,
whatever the span contained. -/
theorem C10_fromSpan_discards_bytes (s : List ℕ)
    (hle : s.length ≤ MAXBLOCKSIZE) :
    BodyContainer.fromSpan s = .ok ⟨[]⟩
    ∧ ∀ {β : Type} (parse : List ℕ → Option β) (b : BodyContainer),
        BodyContainer.fromSpan s = .ok b →
        b.parse_structure parse = parse [] := by
  have hok : BodyContainer.fromSpan s = .ok ⟨[]⟩ := by
    unfold BodyContainer.fromSpan
    rw [if_neg (by omega)]
  refine ⟨hok, fun parse b hb => ?_⟩
  rw [hok] at hb
  cases hb
  rfl

/-- Witness for C10: a nonempty span yields a container with empty bytes,
and parsing it runs the parser on the empty byte string (here: a parser
returning the input's length). -/
theorem C10_fromSpan_discards_bytes_witness :
    BodyContainer.fromSpan [1, 2, 3] = .ok ⟨[]⟩
    ∧ BodyContainer.parse_structure (fun l => some l.length) ⟨[]⟩ = some 0 :=
  ⟨(C10_fromSpan_discards_bytes [1, 2, 3] (by norm_num [MAXBLOCKSIZE])).1,
   (C10_fromSpan_discards_bytes [1, 2, 3] (by norm_num [MAXBLOCKSIZE])).2
      (fun l => some l.length) ⟨[]⟩
      (C10_fromSpan_discards_bytes [1, 2, 3] (by norm_num [MAXBLOCKSIZE])).1⟩

/-- C2: for every inbound buffer, a checksum failure raises `ECHECKSUM`;
with a good checksum, a non-`Init` message before the handshake raises
`ENOINIT` and an `Init` message after the handshake raises `EINVINIT`;
any raised error becomes a close of that peer with that code and ends the
processing of that peer's batch (the loop itself continues: the fold is
total). -/
theorem C2_dispatch_errors (awaiting : Bool) (rb : Rcvbuffer)
    (rest : List Rcvbuffer) :
    (rb.checksumOk = false → dispatch_message awaiting rb = .error .ECHECKSUM)
    ∧ (rb.checksumOk = true → awaiting = true → rb.msg ≠ .init →
        dispatch_message awaiting rb = .error .ENOINIT)
    ∧ (rb.checksumOk = true → awaiting = false → rb.msg = .init →
        dispatch_message awaiting rb = .error .EINVINIT)
    ∧ (∀ e, dispatch_message awaiting rb = .error e →
        process_messages awaiting (rb :: rest) = [.closed e]) := by
  refine ⟨fun hsum => ?_, fun hsum hw hmsg => ?_, fun hsum hw hmsg => ?_,
    fun e he => ?_⟩
  · unfold dispatch_message
    rw [if_pos hsum]
  · unfold dispatch_message
    rw [if_neg (by simp [hsum]), if_pos hw, if_pos hmsg]
  · unfold dispatch_message
    rw [if_neg (by simp [hsum]), if_neg (by simp [hw]), if_pos hmsg]
  · unfold process_messages
    rw [he]

/-- Witness for C2 at concrete buffers: a bad-checksum ping, a
pre-handshake ping, a post-handshake init, and the close-and-stop shape of
the batch processing. -/
theorem C2_dispatch_errors_witness :
    dispatch_message true ⟨false, .ping⟩ = .error .ECHECKSUM
    ∧ dispatch_message true ⟨true, .ping⟩ = .error .ENOINIT
    ∧ dispatch_message false ⟨true, .init⟩ = .error .EINVINIT
    ∧ process_messages false [⟨true, .init⟩, ⟨true, .ping⟩]
        = [.closed .EINVINIT] :=
  ⟨(C2_dispatch_errors true ⟨false, .ping⟩ []).1 rfl,
   (C2_dispatch_errors true ⟨true, .ping⟩ []).2.1 rfl rfl (by decide),
   (C2_dispatch_errors false ⟨true, .init⟩ []).2.2.1 rfl rfl rfl,
   (C2_dispatch_errors false ⟨true, .init⟩ [⟨true, .ping⟩]).2.2.2 .EINVINIT
     ((C2_dispatch_errors false ⟨true, .init⟩ []).2.2.1 rfl rfl rfl)⟩

/-- C3 counterexample: the claim says block replies are throttled with a
2 s gap.  At the concrete input below — peer found, idle throttle queue,
time 0 — the reply is sent immediately and the throttle window ends at
second 1, not second 2: `handle_event(OnForwardBlockrep&&)` passes `1s`
to `send_throttled`, not `2s` (the 2 s gap belongs to header-batch
replies). -/
theorem C3_throttle_gap_counterexample :
    (handle_onForwardBlockrep (some ⟨7, ⟨0, [], false⟩⟩) 0 []).map
        (fun r => r.2.throttled.throttleUntil) = some 1
    ∧ (1 : ℕ) ≠ 2 := by
  constructor
  · rfl
  · decide

/-- C3 (amended: the throttle gap is 1 s, not 2 s): a `ForwardBlockReply`
for a still-registered peer goes through that peer's throttled send queue
with a 1 s throttle gap: with the gap respected and nothing pending the
reply (tagged with the peer's `lastNonce`) is sent immediately and the
window is extended by 1 s; otherwise it is queued and the `ThrottledSend`
timer is armed; each `ThrottledSend` fire drains exactly the queue head;
and neither path drops a buffer (insertion and drain conserve the queue
content). -/
theorem C3_forward_blockrep_throttled (p : ForwardPeer) (now : ℕ)
    (blocks : List BodyContainer) :
    handle_onForwardBlockrep (some p) now blocks
      = some ((send_throttled p.throttled now (p.lastNonce, blocks) 1).1,
          { p with
            throttled := (send_throttled p.throttled now (p.lastNonce, blocks) 1).2 })
    ∧ (∀ (q : ThrottledQueue (ℕ × List BodyContainer))
          (b : ℕ × List BodyContainer),
        (q.throttleUntil ≤ now ∧ q.pending = [] →
          (send_throttled q now b 1).1 = some b
          ∧ (send_throttled q now b 1).2.pending = []
          ∧ (send_throttled q now b 1).2.throttleUntil = now + 1)
        ∧ (¬ (q.throttleUntil ≤ now ∧ q.pending = []) →
          (send_throttled q now b 1).1 = none
          ∧ (send_throttled q now b 1).2.pending = q.pending ++ [b]
          ∧ (send_throttled q now b 1).2.timerArmed = true)
        ∧ (send_throttled q now b 1).1.toList
            ++ (send_throttled q now b 1).2.pending = q.pending ++ [b])
    ∧ (∀ q : ThrottledQueue (ℕ × List BodyContainer),
        (q.onThrottledSend).1 = q.pending.head?
        ∧ (q.onThrottledSend).1.toList ++ (q.onThrottledSend).2.pending
            = q.pending) := by
  refine ⟨rfl, fun q b => ?_, fun q => ?_⟩
  · by_cases hc : q.throttleUntil ≤ now ∧ q.pending = []
    · have hce : q.pending.isEmpty := by
        rw [hc.2]
        rfl
      refine ⟨fun _ => ?_, fun hn => absurd hc hn, ?_⟩ <;>
        simp [send_throttled, ThrottledQueue.insert, ThrottledQueue.add_throttle,
          hc.1, hc.2, hce, Nat.max_eq_right hc.1]
    · have hcb : ¬ (q.throttleUntil ≤ now ∧ q.pending.isEmpty = true) := by
        intro hx
        exact hc ⟨hx.1, List.isEmpty_iff.mp hx.2⟩
      refine ⟨fun hx => absurd hx hc, fun _ => ?_, ?_⟩ <;>
        simp [send_throttled, ThrottledQueue.insert, ThrottledQueue.add_throttle,
          hc]
  · unfold ThrottledQueue.onThrottledSend
    cases hp : q.pending <;> simp

/-- Witness for C3 at a concrete peer: idle queue at time 5 sends the
tagged reply immediately and moves the window to 6; a fire on a queue with
one pending buffer drains exactly it. -/
theorem C3_forward_blockrep_throttled_witness :
    (send_throttled (⟨3, [], false⟩ : ThrottledQueue (ℕ × List BodyContainer))
        5 (7, []) 1).1 = some (7, [])
    ∧ (send_throttled (⟨3, [], false⟩ : ThrottledQueue (ℕ × List BodyContainer))
        5 (7, []) 1).2.throttleUntil = 6 := by
  have h := ((C3_forward_blockrep_throttled ⟨7, ⟨3, [], false⟩⟩ 5 []).2.1
      (⟨3, [], false⟩ : ThrottledQueue (ℕ × List BodyContainer)) (7, [])).1
      (by constructor <;> decide)
  exact ⟨h.1, h.2.2⟩

/-- C6: within one `work` iteration, the expired-timer dispatches form a
prefix of the dispatch trace and the queued-event dispatches the remaining
suffix (so every timer fires strictly before every event); on a
deadline-sorted timer map the popped entries are exactly the entries due
at or before `now`, in deadline order; and the event suffix preserves FIFO
insertion order. -/
theorem C6_timers_before_events {P E : Type} (tes : List (TimerEntry P))
    (evs : List E) (now : ℕ) (hs : TimerSorted tes) :
    workDispatch tes evs now
      = ((pop_expired tes now).1.map .timer) ++ (evs.map .event)
    ∧ (∀ e ∈ (pop_expired tes now).1, e.deadline ≤ now)
    ∧ (∀ e ∈ tes, e.deadline ≤ now → e ∈ (pop_expired tes now).1)
    ∧ ((pop_expired tes now).1.Sorted (fun a b => a.deadline ≤ b.deadline)) := by
  refine ⟨rfl, ?_, ?_, ?_⟩
  · intro e he
    have := List.mem_takeWhile_imp he
    simpa using this
  · intro e he hle
    induction tes with
    | nil => cases he
    | cons a t ih =>
      by_cases ha : a.deadline ≤ now
      · unfold pop_expired
        rw [List.takeWhile_cons_of_pos (by simpa using ha)]
        rcases List.mem_cons.mp he with rfl | ht
        · exact List.mem_cons_self _ _
        · exact List.mem_cons_of_mem _ (ih (List.sorted_cons.mp hs).2 ht)
      · exfalso
        rcases List.mem_cons.mp he with rfl | ht
        · exact ha hle
        · exact ha (le_trans ((List.sorted_cons.mp hs).1 e ht) hle)
  · exact hs.sublist (List.takeWhile_sublist _)

/-- Witness for C6: two timers (deadlines 1 and 3) and two events at
`now = 2`: only the due timer fires, before both events, in order. -/
theorem C6_timers_before_events_witness :
    workDispatch [⟨1, 10⟩, ⟨3, 11⟩] [20, 21] 2
      = ((pop_expired [⟨(1 : ℕ), (10 : ℕ)⟩, ⟨3, 11⟩] 2).1.map Dispatch.timer)
          ++ ([20, 21].map Dispatch.event)
    ∧ TimerEntry.mk 1 10 ∈ (pop_expired [⟨(1 : ℕ), (10 : ℕ)⟩, ⟨3, 11⟩] 2).1 := by
  have h := C6_timers_before_events [⟨(1 : ℕ), (10 : ℕ)⟩, ⟨3, 11⟩]
      ([20, 21] : List ℕ) 2 (by simp [TimerSorted])
  exact ⟨h.1, h.2.2.1 ⟨1, 10⟩ (by simp) (by decide)⟩

/-- Replacing a list element exchanges its contribution to `countP`. -/
theorem countP_set_exchange (p : Job → Bool) (l : List Job) (i : ℕ) (x v : Job)
    (h : l.get? i = some x) :
    (l.set i v).countP p + (if p x then 1 else 0)
      = l.countP p + (if p v then 1 else 0) := by
  induction l generalizing i with
  | nil => simp at h
  | cons a t ih =>
    cases i with
    | zero =>
      simp only [List.get?] at h
      cases h
      simp only [List.set, List.countP_cons]
      by_cases hpx : p x <;> by_cases hpv : p v <;> simp [hpx, hpv]
    | succ i =>
      simp only [List.get?] at h
      simp only [List.set, List.countP_cons]
      have := ih i h
      by_cases hpa : p a <;> simp [hpa] <;> omega

/-- C1: every operation of the event loop that touches a peer's job slot —
peer admission, handshake completion, issuing a request (gated by
`RequestSender::finished`, with `send_request` incrementing only under
`activeRequests < maxRequests`), reply completion, request expiry, and
peer erase — preserves the bound
`Σ indicator(p.job = hasJob ∧ isActive) ≤ maxRequests` on the number of
active in-flight requests across all peers. -/
theorem C1_active_requests_bounded (s s' : ReqState) (hstep : ReqStep s s')
    (hinv : activeJobs s.peers ≤ s.maxRequests) :
    activeJobs s'.peers ≤ s'.maxRequests := by
  cases hstep with
  | addPeer =>
    simpa [activeJobs, List.countP_append, Job.isActiveReq] using hinv
  | gotInit i h =>
    have hx := countP_set_exchange Job.isActiveReq s.peers i _ .idle h
    simp only [activeJobs] at hinv ⊢
    simp only [Job.isActiveReq] at hx
    omega
  | send i isActive h hgate =>
    have hx := countP_set_exchange Job.isActiveReq s.peers i _ (.hasJob isActive) h
    simp only [activeJobs] at hinv ⊢
    cases isActive with
    | false =>
      simp only [Job.isActiveReq] at hx
      omega
    | true =>
      have hfin := hgate rfl
      have hlt : activeJobs s.peers < s.maxRequests := by
        by_contra hge
        have : s.finished = true := by
          simp [ReqState.finished]
          omega
        rw [hfin] at this
        cases this
      simp [Job.isActiveReq] at hx
      simp only [activeJobs] at hlt
      omega
  | complete i a h =>
    have hx := countP_set_exchange Job.isActiveReq s.peers i _ .idle h
    simp only [activeJobs] at hinv ⊢
    simp only [Job.isActiveReq] at hx
    cases a <;> simp at hx <;> omega
  | expire i a h =>
    have hx := countP_set_exchange Job.isActiveReq s.peers i _ (.hasJob false) h
    simp only [activeJobs] at hinv ⊢
    simp only [Job.isActiveReq] at hx
    cases a <;> simp at hx <;> omega
  | erase i =>
    have hsub : (s.peers.eraseIdx i).countP Job.isActiveReq
        ≤ s.peers.countP Job.isActiveReq :=
      (List.eraseIdx_sublist s.peers i).countP_le _
    simp only [activeJobs] at hinv ⊢
    omega

/-- Witness for C1: from one idle peer under budget 1, issuing a
budget-counted request keeps the active count within the budget. -/
theorem C1_active_requests_bounded_witness :
    activeJobs ([Job.idle].set 0 (Job.hasJob true)) ≤ 1 :=
  C1_active_requests_bounded ⟨[Job.idle], 1⟩ _
    (ReqStep.send ⟨[Job.idle], 1⟩ 0 true rfl (fun _ => rfl)) (by decide)

/-- Appending splits the little-endian value. -/
theorem leVal_append (a b : List ℕ) :
    leVal (a ++ b) = leVal a + 256 ^ a.length * leVal b := by
  induction a with
  | nil => simp [leVal]
  | cons x t ih =>
    have hstep : leVal ((x :: t) ++ b) = x + 256 * leVal (t ++ b) := rfl
    have hstep2 : leVal (x :: t) = x + 256 * leVal t := rfl
    rw [hstep, ih, hstep2, List.length_cons]
    ring

/-- A list of bytes denotes a value below `256 ^ length`. -/
theorem leVal_lt_of_bytes (l : List ℕ) (h : ∀ b ∈ l, b < 256) :
    leVal l < 256 ^ l.length := by
  induction l with
  | nil => simp [leVal]
  | cons x t ih =>
    have hx : x < 256 := h x (List.mem_cons_self x t)
    have ht : leVal t < 256 ^ t.length :=
      ih (fun b hb => h b (List.mem_cons_of_mem _ hb))
    have hpow : (256 : ℕ) ^ (x :: t).length = 256 * 256 ^ t.length := by
      rw [List.length_cons, pow_succ]
      ring
    rw [hpow]
    simp only [leVal]
    omega

/-- A little-endian value is zero iff every position reads zero. -/
theorem leVal_eq_zero_iff_getD (l : List ℕ) :
    leVal l = 0 ↔ ∀ j < l.length, l.getD j 0 = 0 := by
  induction l with
  | nil => simp [leVal]
  | cons x t ih =>
    simp only [leVal, List.length_cons]
    constructor
    · intro h j hj
      cases j with
      | zero =>
        simp only [List.getD_cons_zero]
        omega
      | succ j =>
        simp only [List.getD_cons_succ]
        exact (ih.mp (by omega)) j (by omega)
    · intro h
      have hx : x = 0 := by
        have := h 0 (by omega)
        simpa using this
      have ht : leVal t = 0 := ih.mpr (fun j hj => by
        have := h (j + 1) (by omega)
        simpa using this)
      omega

/-- Reading through `drop` shifts the index. -/
theorem getD_drop_eq (l : List ℕ) (m j : ℕ) :
    (l.drop m).getD j 0 = l.getD (m + j) 0 := by
  induction l generalizing m with
  | nil => simp
  | cons x t ih =>
    cases m with
    | zero => simp
    | succ m =>
      simp only [List.drop_succ_cons, Nat.succ_add, List.getD_cons_succ]
      exact ih m

/-- Reading through `take` below the cut is unchanged. -/
theorem getD_take_eq (l : List ℕ) (k j : ℕ) (hj : j < k) :
    (l.take k).getD j 0 = l.getD j 0 := by
  induction l generalizing k j with
  | nil => simp
  | cons x t ih =>
    cases k with
    | zero => omega
    | succ k =>
      cases j with
      | zero => simp
      | succ j => simpa using ih k j (by omega)

/-- The little-endian value of the first four bytes. -/
theorem leVal_take_four (l : List ℕ) (hl : 4 ≤ l.length) :
    leVal (l.take 4) = l.getD 0 0 + 2 ^ 8 * l.getD 1 0
      + 2 ^ 16 * l.getD 2 0 + 2 ^ 24 * l.getD 3 0 := by
  match l with
  | [] => simp at hl
  | [a] => simp at hl
  | [a, b] => simp at hl
  | [a, b, c] => simp at hl
  | a :: b :: c :: d :: t =>
    simp [leVal]
    ring

/-- A 32-byte hash value splits at the `candidate` window: low bytes,
then the four candidate bytes, then the checked-zero top bytes. -/
theorem leVal_split_at_candidate (h : List ℕ) (hlen : h.length = 32)
    (zb : ℕ) (hzb : zb ≤ 28) :
    leVal h = leVal (h.take (28 - zb)) + 256 ^ (28 - zb) * candidate h zb
      + 256 ^ (32 - zb) * leVal (h.drop (32 - zb)) := by
  have h1 : leVal h = leVal (h.take (28 - zb))
      + 256 ^ (28 - zb) * leVal (h.drop (28 - zb)) := by
    conv_lhs => rw [← List.take_append_drop (28 - zb) h]
    rw [leVal_append, List.length_take, hlen, Nat.min_eq_left (by omega)]
  have h2 : leVal (h.drop (28 - zb)) = leVal ((h.drop (28 - zb)).take 4)
      + 256 ^ 4 * leVal ((h.drop (28 - zb)).drop 4) := by
    conv_lhs => rw [← List.take_append_drop 4 (h.drop (28 - zb))]
    rw [leVal_append, List.length_take, List.length_drop, hlen,
      Nat.min_eq_left (by omega)]
  have h3 : (h.drop (28 - zb)).drop 4 = h.drop (32 - zb) := by
    rw [List.drop_drop]
    congr 1
    omega
  have h4 : leVal ((h.drop (28 - zb)).take 4) = candidate h zb := by
    rw [leVal_take_four _ (by rw [List.length_drop, hlen]; omega)]
    unfold candidate hashGet
    simp only [getD_drop_eq]
    norm_num
  rw [h1, h2, h3, h4]
  have hpow : (256 : ℕ) ^ (28 - zb) * 256 ^ 4 = 256 ^ (32 - zb) := by
    rw [← pow_add]
    congr 1
    omega
  calc leVal (h.take (28 - zb)) + 256 ^ (28 - zb) * (candidate h zb
        + 256 ^ 4 * leVal (h.drop (32 - zb)))
      = leVal (h.take (28 - zb)) + 256 ^ (28 - zb) * candidate h zb
        + (256 ^ (28 - zb) * 256 ^ 4) * leVal (h.drop (32 - zb)) := by ring
    _ = _ := by rw [hpow]

/-- The zero-byte loop of `compatible` succeeds iff the top `zerobytes`
bytes of the hash denote zero. -/
theorem topZero_loop_iff (h : List ℕ) (hlen : h.length = 32)
    (zb : ℕ) (hzb : zb ≤ 28) :
    ((List.range zb).any (fun i => hashGet h (31 - i) != 0) = false)
      ↔ leVal (h.drop (32 - zb)) = 0 := by
  rw [leVal_eq_zero_iff_getD]
  simp only [List.length_drop, hlen]
  rw [List.any_eq_false]
  simp only [List.mem_range, bne_iff_ne, ne_eq, not_not, hashGet]
  constructor
  · intro hall j hj
    rw [getD_drop_eq]
    have hidx : 32 - zb + j = 31 - (zb - 1 - j) := by omega
    rw [hidx]
    exact hall (zb - 1 - j) (by omega)
  · intro hall i hi
    have := hall (zb - 1 - i) (by omega)
    rw [getD_drop_eq] at this
    have hidx : 32 - zb + (zb - 1 - i) = 31 - i := by omega
    rw [hidx] at this
    exact this

/-- The final all-zero loop of `compatible` succeeds iff the low
`28 - zerobytes` bytes of the hash denote zero. -/
theorem lowZero_loop_iff (h : List ℕ) (hlen : h.length = 32)
    (k : ℕ) (hk : k ≤ 32) :
    ((List.range k).all (fun i => hashGet h i == 0) = true)
      ↔ leVal (h.take k) = 0 := by
  rw [List.all_eq_true, leVal_eq_zero_iff_getD]
  simp only [List.mem_range, beq_iff_eq, hashGet, List.length_take, hlen,
    Nat.min_eq_left hk]
  constructor
  · intro hall j hj
    rw [getD_take_eq _ _ _ hj]
    exact hall j hj
  · intro hall i hi
    have := hall i hi
    rw [getD_take_eq _ _ _ hi] at this
    exact this

/-- For a 24-bit mantissa, the MSB test of `compatible` reads: the `and`
with `0x00800000` vanishes iff the mantissa is below `2^23`. -/
theorem msb_and_eq_zero_iff (bits : ℕ) (hlt : bits < 2 ^ 24) :
    (bits &&& 0x00800000 = 0) ↔ bits < 2 ^ 23 := by
  rw [show (0x00800000 : ℕ) = 2 ^ 23 by norm_num, Nat.and_two_pow,
    Nat.testBit_to_div_mod]
  by_cases hc : bits / 2 ^ 23 % 2 = 1 <;>
    simp only [hc, decide_True, decide_False, Bool.toNat_true, Bool.toNat_false,
      Nat.one_mul, Nat.zero_mul] <;>
    norm_num at hc hlt ⊢ <;>
    omega

/-- Arithmetic characterization of `TargetV1::compatible`: on a well-formed
32-byte hash it holds exactly when the zero-count is in range, the mantissa
MSB is set, and the hash value (little-endian, `hash[31]` most
significant) is at most `bits24 * 2 ^ (232 - zeros8)`. -/
theorem compatible_iff_le (t : TargetV1) (h : List ℕ) (hh : ValidHash h) :
    t.compatible h = true ↔
      t.zeros8 ≤ 224 ∧ 2 ^ 23 ≤ t.bits24
        ∧ leVal h ≤ t.bits24 * 2 ^ (232 - t.zeros8) := by
  obtain ⟨hlen, hbytes⟩ := hh
  have hblt : t.bits24 < 2 ^ 24 := Nat.and_lt_two_pow _ (by norm_num)
  simp only [TargetV1.compatible]
  by_cases h224 : 256 - 4 * 8 < t.zeros8
  · simp only [if_pos h224, Bool.false_eq_true, false_iff]
    rintro ⟨h1, -, -⟩
    omega
  · simp only [if_neg h224]
    have hz224 : t.zeros8 ≤ 224 := by omega
    by_cases hmsb : t.bits24 &&& 0x00800000 = 0
    · simp only [if_pos hmsb, Bool.false_eq_true, false_iff]
      rintro ⟨-, h2, -⟩
      have := (msb_and_eq_zero_iff _ hblt).mp hmsb
      omega
    · simp only [if_neg hmsb]
      have hmsb23 : 2 ^ 23 ≤ t.bits24 := by
        by_contra hlt23
        exact hmsb ((msb_and_eq_zero_iff _ hblt).mpr (by omega))
      set zb := t.zeros8 / 8 with hzbdef
      set sh := t.zeros8 % 8 with hshdef
      have hzb28 : zb ≤ 28 := by omega
      have hsplit := leVal_split_at_candidate h hlen zb hzb28
      have hTeq : t.bits24 <<< (8 - sh) = t.bits24 * 2 ^ (8 - sh) :=
        Nat.shiftLeft_eq _ _
      have hbound : t.bits24 * 2 ^ (232 - t.zeros8)
          = (t.bits24 * 2 ^ (8 - sh)) * 256 ^ (28 - zb) := by
        rw [mul_assoc]
        congr 1
        rw [show (256 : ℕ) = 2 ^ 8 by norm_num, ← pow_mul, ← pow_add]
        congr 1
        omega
      by_cases hany :
          (List.range zb).any (fun i => hashGet h (31 - i) != 0) = true
      · simp only [if_pos hany, Bool.false_eq_true, false_iff]
        rintro ⟨-, -, h3⟩
        have hPne : leVal (h.drop (32 - zb)) ≠ 0 := by
          intro h0
          have hf := (topZero_loop_iff h hlen zb hzb28).mpr h0
          rw [hany] at hf
          cases hf
        have hge : 256 ^ (32 - zb) ≤ leVal h := by
          have h1le : 1 ≤ leVal (h.drop (32 - zb)) :=
            Nat.one_le_iff_ne_zero.mpr hPne
          calc 256 ^ (32 - zb) = 256 ^ (32 - zb) * 1 := (mul_one _).symm
            _ ≤ 256 ^ (32 - zb) * leVal (h.drop (32 - zb)) :=
              Nat.mul_le_mul_left _ h1le
            _ ≤ leVal h := by
              rw [hsplit]
              exact Nat.le_add_left _ _
        have hlt : t.bits24 * 2 ^ (232 - t.zeros8) < 256 ^ (32 - zb) := by
          calc t.bits24 * 2 ^ (232 - t.zeros8)
              < 2 ^ 24 * 2 ^ (232 - t.zeros8) :=
                mul_lt_mul_of_pos_right hblt (pow_pos (by norm_num) _)
            _ = 2 ^ (24 + (232 - t.zeros8)) := (pow_add 2 24 _).symm
            _ ≤ 2 ^ (8 * (32 - zb)) := Nat.pow_le_pow_right (by norm_num) (by omega)
            _ = 256 ^ (32 - zb) := by
                rw [show (256 : ℕ) = 2 ^ 8 by norm_num, ← pow_mul]
        exact absurd (le_trans hge h3) (not_le_of_lt hlt)
      · have hanyf : (List.range zb).any (fun i => hashGet h (31 - i) != 0)
            = false := Bool.eq_false_iff.mpr hany
        simp only [if_neg hany]
        have hP0 : leVal (h.drop (32 - zb)) = 0 :=
          (topZero_loop_iff h hlen zb hzb28).mp hanyf
        have hsplit' : leVal h = leVal (h.take (28 - zb))
            + 256 ^ (28 - zb) * candidate h zb := by
          rw [hsplit, hP0]
          ring
        have hL : leVal (h.take (28 - zb)) < 256 ^ (28 - zb) := by
          have hb := leVal_lt_of_bytes (h.take (28 - zb))
            (fun b hb => hbytes b (List.take_subset _ _ hb))
          rwa [List.length_take, hlen, Nat.min_eq_left (by omega)] at hb
        have hApos : 0 < 256 ^ (28 - zb) := pow_pos (by norm_num) _
        have hiff : leVal h ≤ t.bits24 * 2 ^ (232 - t.zeros8)
            ↔ (candidate h zb < t.bits24 * 2 ^ (8 - sh)
               ∨ (candidate h zb = t.bits24 * 2 ^ (8 - sh)
                  ∧ leVal (h.take (28 - zb)) = 0)) := by
          rw [hbound, hsplit']
          constructor
          · intro hle
            have hCT : candidate h zb ≤ t.bits24 * 2 ^ (8 - sh) := by
              refine Nat.le_of_mul_le_mul_left ?_ hApos
              calc 256 ^ (28 - zb) * candidate h zb
                  ≤ leVal (h.take (28 - zb))
                    + 256 ^ (28 - zb) * candidate h zb := Nat.le_add_left _ _
                _ ≤ t.bits24 * 2 ^ (8 - sh) * 256 ^ (28 - zb) := hle
                _ = 256 ^ (28 - zb) * (t.bits24 * 2 ^ (8 - sh)) := mul_comm _ _
            rcases Nat.lt_or_ge (candidate h zb) (t.bits24 * 2 ^ (8 - sh))
              with hlt | hge2
            · exact Or.inl hlt
            · have hCeq : candidate h zb = t.bits24 * 2 ^ (8 - sh) :=
                le_antisymm hCT hge2
              refine Or.inr ⟨hCeq, ?_⟩
              rw [hCeq] at hle
              have hle' : leVal (h.take (28 - zb))
                  + 256 ^ (28 - zb) * (t.bits24 * 2 ^ (8 - sh))
                  ≤ 0 + 256 ^ (28 - zb) * (t.bits24 * 2 ^ (8 - sh)) := by
                rw [Nat.zero_add]
                calc leVal (h.take (28 - zb))
                    + 256 ^ (28 - zb) * (t.bits24 * 2 ^ (8 - sh))
                    ≤ t.bits24 * 2 ^ (8 - sh) * 256 ^ (28 - zb) := hle
                  _ = 256 ^ (28 - zb) * (t.bits24 * 2 ^ (8 - sh)) := mul_comm _ _
              have := Nat.le_of_add_le_add_right hle'
              omega
          · rintro (hlt | ⟨hCeq, hL0⟩)
            · have hstep : leVal (h.take (28 - zb))
                  + 256 ^ (28 - zb) * candidate h zb
                  < 256 ^ (28 - zb) + 256 ^ (28 - zb) * candidate h zb :=
                Nat.add_lt_add_right hL _
              have hstep2 : 256 ^ (28 - zb) + 256 ^ (28 - zb) * candidate h zb
                  ≤ t.bits24 * 2 ^ (8 - sh) * 256 ^ (28 - zb) := by
                calc 256 ^ (28 - zb) + 256 ^ (28 - zb) * candidate h zb
                    = 256 ^ (28 - zb) * (candidate h zb + 1) := by ring
                  _ ≤ 256 ^ (28 - zb) * (t.bits24 * 2 ^ (8 - sh)) :=
                    Nat.mul_le_mul_left _ (by omega)
                  _ = t.bits24 * 2 ^ (8 - sh) * 256 ^ (28 - zb) := mul_comm _ _
              exact le_of_lt (lt_of_lt_of_le hstep hstep2)
            · rw [hCeq, hL0, Nat.zero_add, mul_comm]
        rw [hTeq]
        by_cases hTC : t.bits24 * 2 ^ (8 - sh) < candidate h zb
        · simp only [if_pos hTC, Bool.false_eq_true, false_iff]
          rintro ⟨-, -, h3⟩
          rcases hiff.mp h3 with hlt | ⟨hCeq, -⟩
          · omega
          · omega
        · simp only [if_neg hTC]
          by_cases hCT : candidate h zb < t.bits24 * 2 ^ (8 - sh)
          · simp only [if_pos hCT, true_iff]
            exact ⟨hz224, hmsb23, hiff.mpr (Or.inl hCT)⟩
          · simp only [if_neg hCT]
            rw [lowZero_loop_iff h hlen (28 - zb) (by omega)]
            have hCeq : candidate h zb = t.bits24 * 2 ^ (8 - sh) := by omega
            constructor
            · intro hL0
              exact ⟨hz224, hmsb23, hiff.mpr (Or.inr ⟨hCeq, hL0⟩)⟩
            · rintro ⟨-, -, h3⟩
              rcases hiff.mp h3 with hlt | ⟨-, hL0⟩
              · omega
              · exact hL0

/-- C9 (amended: `t1` must carry a well-formed mantissa, i.e. its MSB set,
as the TargetV1 encoding prescribes; over arbitrary 32-bit values the
original claim fails, see the counterexample): for all TargetV1 values
`t1`, `t2` with `t1`'s mantissa MSB set and every well-formed 32-byte hash
`h`, if `t1.difficulty() ≤ t2.difficulty()` and `t2.compatible(h)`, then
`t1.compatible(h)`. -/
theorem C9_compatible_monotone (t1 t2 : TargetV1) (h : List ℕ)
    (hh : ValidHash h) (hmsb1 : 2 ^ 23 ≤ t1.bits24)
    (hdiff : t1.difficulty ≤ t2.difficulty)
    (hc2 : t2.compatible h = true) : t1.compatible h = true := by
  obtain ⟨hz2, hb2, hH2⟩ := (compatible_iff_le t2 h hh).mp hc2
  have hb1lt : t1.bits24 < 2 ^ 24 := Nat.and_lt_two_pow _ (by norm_num)
  have hcross : 2 ^ (t1.zeros8 + 24) * t2.bits24
      ≤ 2 ^ (t2.zeros8 + 24) * t1.bits24 := by
    have h1 : (0 : ℚ) < (t1.bits24 : ℚ) := by
      have h0 : (0 : ℕ) < t1.bits24 := lt_of_lt_of_le (by norm_num) hmsb1
      exact_mod_cast h0
    have h2 : (0 : ℚ) < (t2.bits24 : ℚ) := by
      have h0 : (0 : ℕ) < t2.bits24 := lt_of_lt_of_le (by norm_num) hb2
      exact_mod_cast h0
    simp only [TargetV1.difficulty] at hdiff
    have hq := (div_le_div_iff₀ h1 h2).mp hdiff
    exact_mod_cast hq
  have hz1 : t1.zeros8 ≤ 224 := by
    by_contra hz1'
    have hlhs : 2 ^ 272 ≤ 2 ^ (t1.zeros8 + 24) * t2.bits24 := by
      calc (2 : ℕ) ^ 272 = 2 ^ 249 * 2 ^ 23 := by rw [← pow_add]
        _ ≤ 2 ^ (t1.zeros8 + 24) * t2.bits24 :=
          Nat.mul_le_mul (Nat.pow_le_pow_right (by norm_num) (by omega)) hb2
    have hrhs : 2 ^ (t2.zeros8 + 24) * t1.bits24 < 2 ^ 272 := by
      calc 2 ^ (t2.zeros8 + 24) * t1.bits24
          < 2 ^ (t2.zeros8 + 24) * 2 ^ 24 :=
            mul_lt_mul_of_pos_left hb1lt (pow_pos (by norm_num) _)
        _ = 2 ^ (t2.zeros8 + 24 + 24) := (pow_add _ _ _).symm
        _ ≤ 2 ^ 272 := Nat.pow_le_pow_right (by norm_num) (by omega)
    exact absurd (le_trans hlhs hcross) (not_le_of_lt hrhs)
  have key : t2.bits24 * 2 ^ (232 - t2.zeros8)
      ≤ t1.bits24 * 2 ^ (232 - t1.zeros8) := by
    have hP : 0 < 2 ^ (t1.zeros8 + t2.zeros8) := pow_pos (by norm_num) _
    refine Nat.le_of_mul_le_mul_right ?_ hP
    have hmul : (2 ^ (t1.zeros8 + 24) * t2.bits24) * 2 ^ 208
        ≤ (2 ^ (t2.zeros8 + 24) * t1.bits24) * 2 ^ 208 :=
      Nat.mul_le_mul_right _ hcross
    calc t2.bits24 * 2 ^ (232 - t2.zeros8) * 2 ^ (t1.zeros8 + t2.zeros8)
        = t2.bits24 * 2 ^ ((232 - t2.zeros8) + (t1.zeros8 + t2.zeros8)) := by
          rw [mul_assoc, ← pow_add]
      _ = t2.bits24 * 2 ^ (t1.zeros8 + 24 + 208) :=
          congrArg (fun n => t2.bits24 * 2 ^ n) (by omega)
      _ = (2 ^ (t1.zeros8 + 24) * t2.bits24) * 2 ^ 208 := by
          rw [pow_add]
          ring
      _ ≤ (2 ^ (t2.zeros8 + 24) * t1.bits24) * 2 ^ 208 := hmul
      _ = t1.bits24 * 2 ^ (t2.zeros8 + 24 + 208) := by
          rw [pow_add]
          ring
      _ = t1.bits24 * 2 ^ ((232 - t1.zeros8) + (t1.zeros8 + t2.zeros8)) :=
          congrArg (fun n => t1.bits24 * 2 ^ n) (by omega)
      _ = t1.bits24 * 2 ^ (232 - t1.zeros8) * 2 ^ (t1.zeros8 + t2.zeros8) := by
          rw [mul_assoc, ← pow_add]
  exact (compatible_iff_le t1 h hh).mpr ⟨hz1, hmsb1, le_trans hH2 key⟩

/-- Witness for C9 at a concrete well-formed target and hash: target data
`0x00800000` against itself on the all-zero hash. -/
theorem C9_compatible_monotone_witness :
    (TargetV1.mk 0x00800000).compatible (List.replicate 32 0) = true :=
  C9_compatible_monotone (TargetV1.mk 0x00800000) (TargetV1.mk 0x00800000)
    (List.replicate 32 0) (by decide) (by decide) (le_refl _) (by decide)

/-- C9 counterexample: over arbitrary `TargetV1` values, monotonicity
fails.  `t1` with data `0x00400000` (mantissa MSB clear) has difficulty 4;
`t2` with data `0x02800000` has difficulty 8; the all-zero hash satisfies
`t2.compatible` but `t1.compatible` is false because `compatible` rejects
the cleared mantissa MSB. -/
theorem C9_compatible_monotone_counterexample :
    ¬ (∀ (t1 t2 : TargetV1) (h : List ℕ), ValidHash h →
        t1.difficulty ≤ t2.difficulty → t2.compatible h = true →
        t1.compatible h = true) := by
  intro hcl
  have hd1 : (TargetV1.mk 0x00400000).difficulty = 4 := by
    simp only [TargetV1.difficulty,
      (by decide : (TargetV1.mk 0x00400000).zeros8 = 0),
      (by decide : (TargetV1.mk 0x00400000).bits24 = 4194304)]
    norm_num
  have hd2 : (TargetV1.mk 0x02800000).difficulty = 8 := by
    simp only [TargetV1.difficulty,
      (by decide : (TargetV1.mk 0x02800000).zeros8 = 2),
      (by decide : (TargetV1.mk 0x02800000).bits24 = 8388608)]
    norm_num
  have hmono := hcl (TargetV1.mk 0x00400000) (TargetV1.mk 0x02800000)
    (List.replicate 32 0) (by decide) (by rw [hd1, hd2]; norm_num) (by decide)
  have hfalse : (TargetV1.mk 0x00400000).compatible (List.replicate 32 0)
      = false := by decide
  rw [hmono] at hfalse
  cases hfalse
